import Mathlib

/-!
Shallow embedding of the table-transformation core of the repository
Heikene/Kompleks-pomechenii: text normalisation and fuzzy matching of test
names, risk-row filtering and merging (risk_table5.get_risk_rows),
row-template expansion (table_processor.process_rooms_table and
process_equipment_table, risk_table5.insert_table5_into_doc), vertical-merge
synthesis (tools/test11_airflow_calc.vmerge_cells) and the page-boundary
table splitters (risk_table5.split_table5_like_example,
word_test11_splitter.split_after_results_and_repeat_header).

Modelling conventions.  docx XML trees are modelled by plain data: a cell of
the test-11 calculator is a list of paragraphs, each a list of runs (strings);
a cell of the filled tables is a list of paragraph texts; a table row of the
body-level splitter is an opaque identifier (Nat), standing for the identity
of the underlying w:tr element.  Python string functions (str.strip, str.lower,
re.sub with the patterns used in the sources) are reimplemented character by
character over List Char, including the Cyrillic case folding that
re.IGNORECASE and str.lower perform on the relevant code points.
-/

/-- Characters matched by Python whitespace handling (str.strip and the
regular-expression class backslash-s in unicode mode) for the code points that
can occur in the documents handled by this program. -/
def isPySpace (c : Char) : Bool :=
  c == ' ' || c == '\t' || c == '\n' || c == '\r' || c == '\x0b' || c == '\x0c' ||
    c == '\u0085' || c == ' ' || c == ' ' || c == ' ' || c == ' ' ||
    c == ' ' || c == ' ' || c == ' ' || c == ' ' || c == ' ' ||
    c == ' ' || c == ' ' || c == ' ' || c == ' ' || c == ' ' ||
    c == ' ' || c == ' ' || c == ' ' || c == '　' || c == '\x1c' ||
    c == '\x1d' || c == '\x1e' || c == '\x1f'

/-- Collapse every maximal run of whitespace characters to a single space
(the effect of re.sub applied with pattern backslash-s-plus and replacement
one space). -/
def collapseRuns : List Char → List Char
  | [] => []
  | [c] => [if isPySpace c then ' ' else c]
  | c :: d :: rest =>
    if isPySpace c && isPySpace d then collapseRuns (d :: rest)
    else (if isPySpace c then ' ' else c) :: collapseRuns (d :: rest)

/-- Remove characters satisfying p from both ends (Python str.strip with a
character class). -/
def stripCharsL (p : Char → Bool) (l : List Char) : List Char :=
  ((l.dropWhile p).reverse.dropWhile p).reverse

/-- Python str.strip with no argument: strip unicode whitespace. -/
def stripL (l : List Char) : List Char := stripCharsL isPySpace l

/-- Lower-case a character the way Python str.lower does on the ASCII and
Cyrillic code points used by this program. -/
def lowerRu (c : Char) : Char :=
  if 65 ≤ c.toNat ∧ c.toNat ≤ 90 then Char.ofNat (c.toNat + 32)
  else if 0x410 ≤ c.toNat ∧ c.toNat ≤ 0x42F then Char.ofNat (c.toNat + 32)
  else if c.toNat = 0x401 then Char.ofNat 0x451
  else c

/-- Fold the Cyrillic letter yo to ye, as the sources do after lowering. -/
def foldYo (c : Char) : Char := if c = 'ё' then 'е' else c

/-- Does the first list occur as the leading segment of the second one? -/
def leadsList : List Char → List Char → Bool
  | [], _ => true
  | _ :: _, [] => false
  | a :: as, b :: bs => a == b && leadsList as bs

/-- Does needle occur contiguously inside hay (Python substring containment)? -/
def containsSeg (needle hay : List Char) : Bool :=
  (List.range (hay.length + 1)).any fun i => leadsList needle (hay.drop i)

/-- First index of an element satisfying p, as the sources compute it by
scanning in order. -/
def findIdxO (p : α → Bool) : List α → Option Nat
  | [] => none
  | a :: as => if p a then some 0 else (findIdxO p as).map (· + 1)

-- ---------------------------------------------------------------------------
-- tools/test11_airflow_calc.py: cells, write_cell_text, vmerge_cells
-- ---------------------------------------------------------------------------

/-- Vertical-merge flag of a table cell: no w:vMerge element, w:vMerge with
val restart, or w:vMerge with val continue. -/
inductive VMergeState where
  | absent
  | restart
  | cont
  deriving DecidableEq, Repr

/-- A docx table cell as the test-11 calculator sees it: a list of paragraphs,
each a list of runs, plus the vertical-merge flag in its cell properties. -/
structure Cell where
  paras : List (List String)
  vmerge : VMergeState
  deriving DecidableEq, Repr

/-- clear_vmerge from tools/test11_airflow_calc.py: remove any w:vMerge
element from the cell properties. -/
def clear_vmerge (c : Cell) : Cell := { c with vmerge := .absent }

/-- set_vmerge from tools/test11_airflow_calc.py: replace the w:vMerge element
with restart or continue. -/
def set_vmerge (c : Cell) (restart : Bool) : Cell :=
  { c with vmerge := if restart then .restart else .cont }

/-- write_cell_text from tools/test11_airflow_calc.py: write into the first
run of the first paragraph and blank the remaining runs of that paragraph;
paragraphs after the first are not touched. -/
def write_cell_text (c : Cell) (text : String) : Cell :=
  match c.paras with
  | [] => { c with paras := [[text]] }
  | p :: rest =>
    match p with
    | [] => { c with paras := [text] :: rest }
    | _ :: rs => { c with paras := (text :: rs.map fun _ => "") :: rest }

/-- vmerge_cells from tools/test11_airflow_calc.py: clear the merge state of
every cell, write the top value into the first cell with merge-state restart,
and blank each following cell with merge-state continue. -/
def vmerge_cells (cells : List Cell) (top_value : String) : List Cell :=
  match cells with
  | [] => []
  | _ :: _ =>
    match cells.map clear_vmerge with
    | [] => []
    | c0 :: rest =>
      set_vmerge (write_cell_text c0 top_value) true ::
        rest.map fun c => set_vmerge (write_cell_text c "") false

/-- cell_text_all_runs from tools/test11_airflow_calc.py: concatenation of
every run of every paragraph, with non-breaking spaces turned into spaces. -/
def cell_text_all_runs (c : Cell) : String :=
  ⟨(String.join (c.paras.map String.join)).data.map fun ch =>
    if ch = ' ' ∨ ch = ' ' then ' ' else ch⟩

/-- Text carried by the first paragraph of a cell. -/
def firstParaText (c : Cell) : String := String.join (c.paras.headD [])

lemma join_map_empty (rs : List String) : String.join (rs.map fun _ => "") = "" := by
  induction rs with
  | nil => rfl
  | cons a as ih => simpa [String.join] using ih

lemma foldl_append_blank (t : String) (n : Nat) :
    List.foldl (fun r s => r ++ s) t (List.replicate n "") = t := by
  induction n generalizing t with
  | zero => rfl
  | succ m ih => simpa [List.replicate_succ] using ih t

lemma firstParaText_write (c : Cell) (t : String) :
    firstParaText (write_cell_text c t) = t := by
  unfold write_cell_text firstParaText
  rcases c with ⟨paras, v⟩
  cases paras with
  | nil => simp [String.join]
  | cons p rest =>
    cases p with
    | nil => simp [String.join]
    | cons r rs => simp [String.join, foldl_append_blank]

/-- C5.  The claim as stated is false: write_cell_text only rewrites the runs
of the first paragraph, so a continuation cell that had a second paragraph
keeps that text after vmerge_cells; here the second cell of the block still
reads "c" instead of being empty. -/
theorem vmerge_cells_nonempty_text_counterexample :
    ¬ (∀ c ∈ (vmerge_cells [⟨[["a"]], .absent⟩, ⟨[["b"], ["c"]], .restart⟩] "T").tail,
        cell_text_all_runs c = "") := by
  decide

/-- C5 (amended).  For every non-empty cell list, vmerge_cells clears and
rewrites the merge state of every cell so that exactly one cell, the first,
has merge-state restart and carries the top value as its first-paragraph text,
and every other cell has merge-state continue and empty first-paragraph text;
paragraphs after the first are left untouched, so only the first paragraph of
each cell is guaranteed empty, not the whole cell text. -/
theorem vmerge_cells_block_integrity (cells : List Cell) (top : String)
    (h : cells ≠ []) :
    (vmerge_cells cells top).length = cells.length
    ∧ ((vmerge_cells cells top).countP fun c => c.vmerge == .restart) = 1
    ∧ (∀ c0, (vmerge_cells cells top).head? = some c0 →
        c0.vmerge = .restart ∧ firstParaText c0 = top)
    ∧ (∀ c ∈ (vmerge_cells cells top).tail,
        c.vmerge = .cont ∧ firstParaText c = "") := by
  rcases cells with _ | ⟨c0, rest⟩
  · exact absurd rfl h
  · unfold vmerge_cells
    simp only [List.map_cons]
    refine ⟨by simp, ?_, ?_, ?_⟩
    · simp only [List.countP_cons, set_vmerge]
      have hrest : ((rest.map clear_vmerge).map fun c =>
          set_vmerge (write_cell_text c "") false).countP (fun c => c.vmerge == .restart) = 0 := by
        rw [List.countP_eq_zero]
        intro c hc
        simp only [List.mem_map] at hc
        obtain ⟨x, _, rfl⟩ := hc
        simp [set_vmerge]
      simp [hrest, set_vmerge]
    · intro cc hcc
      simp only [List.head?_cons, Option.some.injEq] at hcc
      subst hcc
      exact ⟨rfl, firstParaText_write _ _⟩
    · intro c hc
      simp only [List.tail_cons, List.mem_map] at hc
      obtain ⟨x, _, rfl⟩ := hc
      exact ⟨rfl, firstParaText_write _ _⟩

/-- Witness for the amended C5 theorem at a concrete two-cell block. -/
theorem vmerge_cells_block_integrity_witness :
    (vmerge_cells [⟨[["x"]], .cont⟩, ⟨[["y"]], .restart⟩] "top").length = 2
    ∧ ((vmerge_cells [⟨[["x"]], .cont⟩, ⟨[["y"]], .restart⟩] "top").countP
        fun c => c.vmerge == .restart) = 1 := by
  have h := vmerge_cells_block_integrity [⟨[["x"]], .cont⟩, ⟨[["y"]], .restart⟩] "top"
    (by decide)
  exact ⟨h.1, h.2.1⟩

-- ---------------------------------------------------------------------------
-- risk_table5.py: normalisation, fuzzy matching, get_risk_rows
-- ---------------------------------------------------------------------------

/-- norm_basic from risk_table5.py (source name with a leading underscore):
replace non-breaking and narrow non-breaking spaces by spaces, drop zero-width
spaces and soft hyphens, collapse whitespace runs, strip, lower-case and fold
yo to ye. -/
def norm_basic_list (l : List Char) : List Char :=
  let l1 := l.filterMap fun c =>
    if c = ' ' ∨ c = ' ' then some ' '
    else if c = '​' ∨ c = '­' then none
    else some c
  (stripL (collapseRuns l1)).map fun c => foldYo (lowerRu c)

/-- String-level wrapper of norm_basic_list. -/
def norm_basic (s : String) : String := ⟨norm_basic_list s.data⟩

/-- Is the character kept by the comparison-key filter of match_key
(digits, ASCII lower-case letters, Cyrillic lower-case a through ya)? -/
def isKeyChar (c : Char) : Bool :=
  ('0' ≤ c ∧ c ≤ '9') ∨ ('a' ≤ c ∧ c ≤ 'z') ∨ (0x430 ≤ c.toNat ∧ c.toNat ≤ 0x44F)

/-- match_key from risk_table5.py: normalise and keep only alphanumeric
characters, producing the key used for fuzzy comparison. -/
def match_key_list (l : List Char) : List Char := (norm_basic_list l).filter isKeyChar

/-- String-level wrapper of match_key_list. -/
def match_key (s : String) : String := ⟨match_key_list s.data⟩

/-- is_match from risk_table5.py: both keys non-empty and one key contained
in the other. -/
def is_match (selected_name test_from_excel : String) : Bool :=
  let sk := match_key_list selected_name.data
  let tk := match_key_list test_from_excel.data
  if sk = [] ∨ tk = [] then false
  else containsSeg sk tk || containsSeg tk sk

/-- Split a list of characters at every character satisfying p (the pieces
between separators, possibly empty). -/
def splitOnP (p : Char → Bool) : List Char → List (List Char)
  | [] => [[]]
  | c :: cs =>
    if p c then [] :: splitOnP p cs
    else
      match splitOnP p cs with
      | [] => [[c]]
      | t :: ts => (c :: t) :: ts

/-- split_tests_cell from risk_table5.py: if the normalised cell is empty,
no tests; otherwise split the original text on newlines and semicolons and
strip each part of spaces, tabs, carriage returns and commas, keeping the
non-empty parts. -/
def split_tests_cell (s : String) : List String :=
  if norm_basic_list s.data = [] then []
  else
    let src := stripL (s.data.map fun c => if c = ' ' then ' ' else c)
    (splitOnP (fun c => c = '\n' ∨ c = ';') src).filterMap fun part =>
      let q := stripCharsL (fun c => c = ' ' ∨ c = '\t' ∨ c = '\r' ∨ c = ',') part
      if q = [] then none else some ⟨q⟩

/-- Parser for the regular expression fragment digits-dot used by
selected_tests_to_names: drop a leading occurrence of optional spaces, one or
more digits, optional spaces and a dot followed by optional spaces; if the
input does not start that way it is returned unchanged. -/
def dropNumDot (l : List Char) : List Char :=
  let l1 := l.dropWhile isPySpace
  let d := l1.takeWhile Char.isDigit
  if d = [] then l
  else
    match (l1.dropWhile Char.isDigit).dropWhile isPySpace with
    | '.' :: rest => rest.dropWhile isPySpace
    | _ => l

/-- Parser for the case-insensitive regular expression fragment used by
selected_tests_to_names to drop a leading test label: the word test in
Cyrillic, optional spaces, digits, an optional dot-digits group, an optional
trailing dot and optional spaces; unchanged when the pattern does not match. -/
def dropTestWord (l : List Char) : List Char :=
  let l1 := l.dropWhile isPySpace
  if leadsList "тест".data (l1.map lowerRu) then
    let l2 := (l1.drop 4).dropWhile isPySpace
    if l2.takeWhile Char.isDigit = [] then l
    else
      let l3 := l2.dropWhile Char.isDigit
      let l4 :=
        match l3 with
        | '.' :: c :: rest => if c.isDigit then (c :: rest).dropWhile Char.isDigit else l3
        | _ => l3
      let l5 :=
        match l4 with
        | '.' :: rest => rest
        | _ => l4
      l5.dropWhile isPySpace
  else l

/-- selected_tests_to_names from risk_table5.py: strip each selected label,
drop empty ones, remove a leading order number and a leading test label, and
strip again (possibly leaving an empty name, filtered out by the caller). -/
def selected_tests_to_names (selected_tests : List String) : List String :=
  selected_tests.filterMap fun t =>
    let t0 := stripL t.data
    if t0 = [] then none
    else some ⟨stripL (dropTestWord (dropNumDot t0))⟩

/-- Append an element to the accumulator unless it is already present: the
building block of every order-preserving union in get_risk_rows. -/
def addNew (acc : List String) (t : String) : List String :=
  if t ∈ acc then acc else acc ++ [t]

/-- First-occurrence deduplication: fold addNew over the list. -/
def firstDedup (l : List String) : List String := l.foldl addNew []

/-- The matched-test collection loop of get_risk_rows (risk_table5.py lines
181 to 187): for every selected name in selection order, append each
spreadsheet test it matches unless already collected. -/
def matched_tests (sel_names tests_list : List String) : List String :=
  sel_names.foldl
    (fun acc s => tests_list.foldl (fun a t => if is_match s t then addNew a t else a) acc)
    []

/-- A row for Table 5 as built by get_risk_rows. -/
structure RiskRow where
  risk : String
  cause : String
  prob_letter : String
  prob_score : String
  sev_letter : String
  sev_score : String
  det_letter : String
  det_score : String
  level_letter : String
  rpn : String
  tests : List String
  deriving DecidableEq, Repr

/-- The deduplication key of get_risk_rows: every field except tests, with
risk and cause taken through match_key. -/
def rowKey (r : RiskRow) : List String :=
  [match_key r.risk, match_key r.cause, r.prob_letter, r.prob_score,
   r.sev_letter, r.sev_score, r.det_letter, r.det_score, r.level_letter, r.rpn]

/-- One step of the merge loop of get_risk_rows: if a row with the same key
was already emitted, extend its tests by the new tests not yet present,
otherwise append the new row at the end. -/
def insertRow : List RiskRow → RiskRow → List RiskRow
  | [], rr => [rr]
  | ex :: rest, rr =>
    if rowKey ex = rowKey rr then
      { ex with tests := rr.tests.foldl addNew ex.tests } :: rest
    else ex :: insertRow rest rr

/-- The merge phase of get_risk_rows (risk_table5.py lines 208 to 236). -/
def mergeRows (raw : List RiskRow) : List RiskRow := raw.foldl insertRow []

-- Worksheet model: row-major grid of optional cell values; grid row 0 is
-- spreadsheet row 1 (the header row).

/-- An openpyxl worksheet as get_risk_rows reads it. -/
structure Ws where
  grid : List (List (Option String))

/-- One-based cell access inside a row, absent cells read as None. -/
def cellAt (row : List (Option String)) (c : Nat) : Option String :=
  row.getD (c - 1) none

/-- build_header_map followed by lookup: the last 1-based column of the header
row whose normalised value equals k (later columns overwrite earlier ones in
the Python dict). -/
def headerCol (hdr : List (Option String)) (k : List Char) : Option Nat :=
  (List.range hdr.length).foldl
    (fun acc i =>
      match hdr.getD i none with
      | none => acc
      | some v => if norm_basic_list v.data = k then some (i + 1) else acc)
    none

/-- The helper h from risk_table5.py: try each header variant in order. -/
def hvariant (hdr : List (Option String)) : List String → Option Nat
  | [] => none
  | v :: rest =>
    match headerCol hdr (norm_basic_list v.data) with
    | some c => some c
    | none => hvariant hdr rest

/-- The cols dictionary of get_risk_rows: one optional column per field. -/
structure RiskCols where
  risk : Option Nat
  cause : Option Nat
  prob_l : Option Nat
  prob_s : Option Nat
  sev_l : Option Nat
  sev_s : Option Nat
  det_l : Option Nat
  det_s : Option Nat
  level_l : Option Nat
  rpn : Option Nat
  tests : Option Nat
  deriving DecidableEq, Repr

/-- The column lookups of get_risk_rows with their Russian header variants. -/
def risk_cols (hdr : List (Option String)) : RiskCols where
  risk := hvariant hdr ["Риск"]
  cause := hvariant hdr ["Возможная причина"]
  prob_l := hvariant hdr ["Вероятность_оценка", "Вероятность оценка"]
  prob_s := hvariant hdr ["Вероятность_балл", "Вероятность балл"]
  sev_l := hvariant hdr ["Тяжесть_оценка", "Тяжесть оценка"]
  sev_s := hvariant hdr ["Тяжесть_балл", "Тяжесть балл"]
  det_l := hvariant hdr ["Необнаружение_оценка", "Необнаружение оценка"]
  det_s := hvariant hdr ["Необнаружение_балл", "Необнаружение балл"]
  level_l := hvariant hdr ["Уровень_риска", "Уровень риска"]
  rpn := hvariant hdr ["ПЧР", "RPN"]
  tests := hvariant hdr ["Аттестационное испытание", "Квалификационное испытание"]

/-- The any-is-None test of get_risk_rows over the cols dictionary. -/
def colsMissing (c : RiskCols) : Bool :=
  c.risk.isNone || c.cause.isNone || c.prob_l.isNone || c.prob_s.isNone ||
    c.sev_l.isNone || c.sev_s.isNone || c.det_l.isNone || c.det_s.isNone ||
    c.level_l.isNone || c.rpn.isNone || c.tests.isNone

/-- Python repr of an optional column number inside the error message. -/
def optRepr : Option Nat → String
  | none => "None"
  | some n => toString n

/-- Python repr of the cols dictionary, as interpolated into the ValueError
message of get_risk_rows. -/
def colsRepr (c : RiskCols) : String :=
  "\x7b\x27risk\x27: " ++ optRepr c.risk ++ ", \x27cause\x27: " ++ optRepr c.cause ++
    ", \x27prob_l\x27: " ++ optRepr c.prob_l ++ ", \x27prob_s\x27: " ++ optRepr c.prob_s ++
    ", \x27sev_l\x27: " ++ optRepr c.sev_l ++ ", \x27sev_s\x27: " ++ optRepr c.sev_s ++
    ", \x27det_l\x27: " ++ optRepr c.det_l ++ ", \x27det_s\x27: " ++ optRepr c.det_s ++
    ", \x27level_l\x27: " ++ optRepr c.level_l ++ ", \x27rpn\x27: " ++ optRepr c.rpn ++
    ", \x27tests\x27: " ++ optRepr c.tests ++ "\x7d"

/-- The ValueError message raised by get_risk_rows when a column is missing. -/
def colsErrMsg (c : RiskCols) : String :=
  "Не найдены все нужные колонки в Excel (ожидается строка 1). Найдено: " ++ colsRepr c

/-- The resolved column numbers once all lookups succeeded. -/
structure ColsN where
  risk : Nat
  cause : Nat
  prob_l : Nat
  prob_s : Nat
  sev_l : Nat
  sev_s : Nat
  det_l : Nat
  det_s : Nat
  level_l : Nat
  rpn : Nat
  tests : Nat
  deriving DecidableEq, Repr

/-- sval from get_risk_rows: empty for None, stripped string otherwise. -/
def sval : Option String → String
  | none => ""
  | some v => ⟨stripL v.data⟩

/-- Does the character list match the regular expression digits-dot-zero
exactly (a float that prints as an integer)? -/
def isIntDotZero (l : List Char) : Bool :=
  2 < l.length ∧ (l.take (l.length - 2)).all Char.isDigit ∧ l.drop (l.length - 2) = ['.', '0']

/-- ival from get_risk_rows: like sval but turning a trailing dot-zero into
the integer spelling. -/
def ival : Option String → String
  | none => ""
  | some v =>
    let s := stripL v.data
    if isIntDotZero s then ⟨s.take (s.length - 2)⟩ else ⟨s⟩

/-- The tests list parsed from the tests column of a spreadsheet row. -/
def rowTestsList (k : ColsN) (row : List (Option String)) : List String :=
  split_tests_cell
    (match cellAt row k.tests with
     | none => ""
     | some s => s)

/-- The per-row body of the reading loop of get_risk_rows (lines 171 to 206):
skip blank rows, with a non-empty selection keep only rows with at least one
matched test and record the matched subset, with an empty selection record the
full tests list. -/
def rowToRaw (k : ColsN) (sel_names : List String) (row : List (Option String)) :
    Option RiskRow :=
  let risk := sval (cellAt row k.risk)
  let cause := sval (cellAt row k.cause)
  let tests_list := rowTestsList k row
  if risk = "" ∧ cause = "" ∧ tests_list = [] then none
  else
    let mk : List String → RiskRow := fun mt =>
      { risk := risk, cause := cause
        prob_letter := sval (cellAt row k.prob_l), prob_score := ival (cellAt row k.prob_s)
        sev_letter := sval (cellAt row k.sev_l), sev_score := ival (cellAt row k.sev_s)
        det_letter := sval (cellAt row k.det_l), det_score := ival (cellAt row k.det_s)
        level_letter := sval (cellAt row k.level_l), rpn := ival (cellAt row k.rpn)
        tests := mt }
    if sel_names ≠ [] then
      let m := matched_tests sel_names tests_list
      if m = [] then none else some (mk m)
    else some (mk tests_list)

/-- get_risk_rows from risk_table5.py with the workbook already loaded into a
grid: build the header map, resolve the columns, raise (error) when any is
missing, then read, filter and merge the rows. -/
def get_risk_rows (ws : Ws) (selected_tests : List String) :
    Except String (List RiskRow) :=
  let hdr := ws.grid.headD []
  let c := risk_cols hdr
  if colsMissing c then .error (colsErrMsg c)
  else
    let k : ColsN :=
      ⟨c.risk.getD 0, c.cause.getD 0, c.prob_l.getD 0, c.prob_s.getD 0, c.sev_l.getD 0,
       c.sev_s.getD 0, c.det_l.getD 0, c.det_s.getD 0, c.level_l.getD 0, c.rpn.getD 0,
       c.tests.getD 0⟩
    let sel_names := (selected_tests_to_names selected_tests).filter fun s => stripL s.data ≠ []
    .ok (mergeRows ((ws.grid.drop 1).filterMap (rowToRaw k sel_names)))

-- Lemmas about addNew, firstDedup and matched_tests.

lemma mem_addNew (acc : List String) (t x : String) :
    x ∈ addNew acc t ↔ x ∈ acc ∨ x = t := by
  unfold addNew
  split
  next h =>
    constructor
    · exact fun hx => Or.inl hx
    · rintro (hx | rfl)
      · exact hx
      · exact h
  next h => simp

lemma mem_foldl_addNew (l : List String) (acc : List String) (x : String) :
    x ∈ l.foldl addNew acc ↔ x ∈ acc ∨ x ∈ l := by
  induction l generalizing acc with
  | nil => simp
  | cons t ts ih =>
    rw [List.foldl_cons, ih, mem_addNew]
    simp [List.mem_cons, or_assoc]

lemma foldl_guard_filter (s : String) (tests : List String) (acc : List String) :
    tests.foldl (fun a t => if is_match s t then addNew a t else a) acc
      = (tests.filter fun t => is_match s t).foldl addNew acc := by
  induction tests generalizing acc with
  | nil => rfl
  | cons t ts ih =>
    by_cases h : is_match s t = true
    · simp [List.filter_cons, h, ih]
    · simp [List.filter_cons, h, ih]

lemma foldl_addNew_flatten (f : String → List String) (sel : List String)
    (init : List String) :
    ((sel.map f).flatten).foldl addNew init
      = sel.foldl (fun acc s => (f s).foldl addNew acc) init := by
  induction sel generalizing init with
  | nil => rfl
  | cons s ss ih => simp [List.foldl_append, ih]

lemma matched_tests_eq (sel tests : List String) :
    matched_tests sel tests
      = firstDedup ((sel.map fun s => tests.filter fun t => is_match s t).flatten) := by
  unfold matched_tests firstDedup
  rw [foldl_addNew_flatten]
  simp only [foldl_guard_filter]

lemma mem_firstDedup (l : List String) (x : String) : x ∈ firstDedup l ↔ x ∈ l := by
  unfold firstDedup
  rw [mem_foldl_addNew]
  simp

lemma mem_matched_tests (sel tests : List String) (t : String) :
    t ∈ matched_tests sel tests ↔ t ∈ tests ∧ ∃ s ∈ sel, is_match s t = true := by
  rw [matched_tests_eq, mem_firstDedup]
  simp only [List.mem_flatten, List.mem_map]
  constructor
  · rintro ⟨l, ⟨s, hs, rfl⟩, htl⟩
    rw [List.mem_filter] at htl
    exact ⟨htl.1, s, hs, htl.2⟩
  · rintro ⟨ht, s, hs, hm⟩
    refine ⟨tests.filter fun u => is_match s u, ⟨s, hs, rfl⟩, ?_⟩
    rw [List.mem_filter]
    exact ⟨ht, hm⟩

lemma matched_tests_ne_nil_iff (sel tests : List String) :
    matched_tests sel tests ≠ [] ↔ ∃ t ∈ tests, ∃ s ∈ sel, is_match s t = true := by
  rw [Ne, List.eq_nil_iff_forall_not_mem]
  push_neg
  constructor
  · rintro ⟨t, ht⟩
    have := (mem_matched_tests sel tests t).mp ht
    exact ⟨t, this.1, this.2⟩
  · rintro ⟨t, ht, s, hs, hm⟩
    exact ⟨t, (mem_matched_tests sel tests t).mpr ⟨ht, s, hs, hm⟩⟩

/-- C6.  For every spreadsheet row, with a non-empty selection the row is
turned into a risk row iff at least one of its parsed tests fuzzy-matches at
least one selected name; the retained tests of an included row are exactly the
matched subset of its tests, listed in the order of the selection
(first-occurrence deduplication of the selection-major traversal); with an
empty selection the full parsed tests list is retained. -/
theorem risk_row_filtering (k : ColsN) (sel : List String) (row : List (Option String)) :
    (sel ≠ [] →
      ((rowToRaw k sel row).isSome = true ↔
        ∃ t ∈ rowTestsList k row, ∃ s ∈ sel, is_match s t = true))
    ∧ (∀ rr, sel ≠ [] → rowToRaw k sel row = some rr →
        rr.tests
            = firstDedup ((sel.map fun s =>
                (rowTestsList k row).filter fun t => is_match s t).flatten)
          ∧ ∀ t, t ∈ rr.tests ↔
              t ∈ rowTestsList k row ∧ ∃ s ∈ sel, is_match s t = true)
    ∧ (∀ rr, rowToRaw k [] row = some rr → rr.tests = rowTestsList k row) := by
  refine ⟨?_, ?_, ?_⟩
  · intro hsel
    by_cases h1 : sval (cellAt row k.risk) = "" ∧ sval (cellAt row k.cause) = ""
        ∧ rowTestsList k row = []
    · simp [rowToRaw, h1, h1.2.2]
    · by_cases h3 : matched_tests sel (rowTestsList k row) = []
      · have hno : ¬ ∃ t ∈ rowTestsList k row, ∃ s ∈ sel, is_match s t = true := by
          rw [← matched_tests_ne_nil_iff]
          simpa using h3
        simp [rowToRaw, h1, hsel, h3, hno]
      · have hyes : ∃ t ∈ rowTestsList k row, ∃ s ∈ sel, is_match s t = true :=
          (matched_tests_ne_nil_iff sel (rowTestsList k row)).mp h3
        simp [rowToRaw, h1, hsel, h3, hyes]
  · intro rr hsel hr
    by_cases h1 : sval (cellAt row k.risk) = "" ∧ sval (cellAt row k.cause) = ""
        ∧ rowTestsList k row = []
    · simp [rowToRaw, h1] at hr
    · by_cases h3 : matched_tests sel (rowTestsList k row) = []
      · simp [rowToRaw, h1, hsel, h3] at hr
      · simp only [rowToRaw] at hr
        rw [if_neg h1, if_pos hsel, if_neg h3, Option.some.injEq] at hr
        subst hr
        refine ⟨?_, ?_⟩
        · exact matched_tests_eq sel (rowTestsList k row)
        · intro t
          exact mem_matched_tests sel (rowTestsList k row) t
  · intro rr hr
    by_cases h1 : sval (cellAt row k.risk) = "" ∧ sval (cellAt row k.cause) = ""
        ∧ rowTestsList k row = []
    · simp [rowToRaw, h1] at hr
    · simp only [rowToRaw] at hr
      rw [if_neg h1, if_neg (show ¬(([] : List String) ≠ []) by simp),
        Option.some.injEq] at hr
      subst hr
      rfl

/-- Witness for the C6 theorem at a concrete selection and spreadsheet row. -/
theorem risk_row_filtering_witness :
    (rowToRaw ⟨1, 2, 3, 4, 5, 6, 7, 8, 9, 10, 11⟩ ["функции"]
      [some "утечка", some "износ", some "Н", some "2", some "С", some "3",
       some "В", some "4", some "низкий", some "24", some "Тест функции"]).isSome = true :=
  ((risk_row_filtering ⟨1, 2, 3, 4, 5, 6, 7, 8, 9, 10, 11⟩ ["функции"]
      [some "утечка", some "износ", some "Н", some "2", some "С", some "3",
       some "В", some "4", some "низкий", some "24", some "Тест функции"]).1
    (by decide)).mpr
    ⟨"Тест функции", by decide, "функции", by decide, by decide⟩

-- Lemmas about insertRow and mergeRows.

lemma rowKey_set_tests (ex : RiskRow) (ts : List String) :
    rowKey { ex with tests := ts } = rowKey ex := rfl

lemma insertRow_mem_key (merged : List RiskRow) (rr a : RiskRow)
    (ha : a ∈ insertRow merged rr) :
    rowKey a = rowKey rr ∨ ∃ b ∈ merged, rowKey a = rowKey b := by
  induction merged with
  | nil =>
    simp only [insertRow, List.mem_singleton] at ha
    subst ha
    exact Or.inl rfl
  | cons ex rest ih =>
    unfold insertRow at ha
    split at ha
    next h =>
      rcases List.mem_cons.mp ha with rfl | hrest
      · exact Or.inr ⟨ex, List.mem_cons_self ex rest, rfl⟩
      · exact Or.inr ⟨a, List.mem_cons_of_mem ex hrest, rfl⟩
    next h =>
      rcases List.mem_cons.mp ha with rfl | hrest
      · exact Or.inr ⟨a, List.mem_cons_self a rest, rfl⟩
      · rcases ih hrest with h1 | ⟨b, hb, he⟩
        · exact Or.inl h1
        · exact Or.inr ⟨b, List.mem_cons_of_mem ex hb, he⟩

lemma insertRow_pairwise (merged : List RiskRow) (rr : RiskRow)
    (hp : merged.Pairwise fun x y => rowKey x ≠ rowKey y) :
    (insertRow merged rr).Pairwise fun x y => rowKey x ≠ rowKey y := by
  induction merged with
  | nil => simp [insertRow]
  | cons ex rest ih =>
    rw [List.pairwise_cons] at hp
    obtain ⟨hhead, htail⟩ := hp
    unfold insertRow
    split
    next h =>
      rw [List.pairwise_cons]
      exact ⟨fun b hb => (rowKey_set_tests ex _).symm ▸ hhead b hb, htail⟩
    next h =>
      rw [List.pairwise_cons]
      refine ⟨?_, ih htail⟩
      intro b hb
      rcases insertRow_mem_key rest rr b hb with h1 | ⟨c, hc, he⟩
      · rw [h1]; exact h
      · rw [he]; exact hhead c hc

lemma foldl_insertRow_pairwise (raw acc : List RiskRow)
    (hp : acc.Pairwise fun x y => rowKey x ≠ rowKey y) :
    (raw.foldl insertRow acc).Pairwise fun x y => rowKey x ≠ rowKey y := by
  induction raw generalizing acc with
  | nil => exact hp
  | cons rr rest ih => exact ih (insertRow acc rr) (insertRow_pairwise acc rr hp)

/-- C7.  The merged output of get_risk_rows never contains two rows with an
identical deduplication key (risk, cause and all four letter-and-score pairs),
and merging two filtered rows with the same key yields exactly one row whose
tests are the order-preserving union of both tests lists, appending only the
entries not already present. -/
theorem risk_row_dedup (ws : Ws) (sel : List String) (out : List RiskRow)
    (h : get_risk_rows ws sel = .ok out) :
    (out.Pairwise fun a b => rowKey a ≠ rowKey b)
    ∧ ∀ r1 r2 : RiskRow, rowKey r1 = rowKey r2 →
        mergeRows [r1, r2] = [{ r1 with tests := r2.tests.foldl addNew r1.tests }] := by
  constructor
  · simp only [get_risk_rows] at h
    split at h
    next => exact absurd h (by simp)
    next =>
      rw [Except.ok.injEq] at h
      subst h
      exact foldl_insertRow_pairwise _ [] (by simp)
  · intro r1 r2 hk
    simp only [mergeRows, List.foldl_cons, List.foldl_nil, insertRow]
    rw [if_pos hk]

/-- Witness data for the C7 theorem: a worksheet whose header row carries all
required columns and whose two data rows share the deduplication key. -/
def wsPair : Ws :=
  ⟨[[some "Риск", some "Возможная причина", some "Вероятность_оценка",
     some "Вероятность_балл", some "Тяжесть_оценка", some "Тяжесть_балл",
     some "Необнаружение_оценка", some "Необнаружение_балл", some "Уровень_риска",
     some "ПЧР", some "Аттестационное испытание"],
    [some "утечка", some "износ", some "Н", some "2", some "С", some "3",
     some "В", some "4", some "низкий", some "24", some "Тест функции"],
    [some "утечка", some "износ", some "Н", some "2", some "С", some "3",
     some "В", some "4", some "низкий", some "24", some "Тест герметичности"]]⟩

/-- The rows get_risk_rows computes for the witness worksheet. -/
def outPair : List RiskRow :=
  match get_risk_rows wsPair [] with
  | .ok l => l
  | .error _ => []

/-- Witness for the C7 theorem: the merged output of the witness worksheet has
pairwise distinct keys. -/
theorem risk_row_dedup_witness :
    outPair.Pairwise fun a b => rowKey a ≠ rowKey b :=
  (risk_row_dedup wsPair [] outPair rfl).1

/-- C10.  Whenever any of the required header columns is missing from row 1,
get_risk_rows fails with the ValueError message describing the columns found,
and produces no rows at all. -/
theorem get_risk_rows_missing_column (ws : Ws) (sel : List String)
    (h : colsMissing (risk_cols (ws.grid.headD [])) = true) :
    get_risk_rows ws sel = .error (colsErrMsg (risk_cols (ws.grid.headD []))) := by
  simp only [get_risk_rows]
  rw [if_pos h]

/-- Witness for the C10 theorem: a worksheet whose header row only carries the
risk column. -/
theorem get_risk_rows_missing_column_witness :
    get_risk_rows ⟨[[some "Риск"]]⟩ []
      = .error (colsErrMsg (risk_cols ((⟨[[some "Риск"]]⟩ : Ws).grid.headD []))) :=
  get_risk_rows_missing_column ⟨[[some "Риск"]]⟩ [] (by decide)

-- ---------------------------------------------------------------------------
-- table_processor.py and risk_table5.py: row-template expansion
-- ---------------------------------------------------------------------------

/-- A docx table row at paragraph-text granularity: a list of cells, each a
list of paragraph texts. -/
abbrev DocRow := List (List String)

/-- The text of a cell as python-docx reports it: paragraph texts joined by
newlines. -/
def cellText (c : List String) : String := String.intercalate "\n" c

/-- The removal loop of remove_rows_from in risk_table5.py, structured with
explicit fuel (one unit per removed row) so that it computes by structural
recursion: while the table has more rows than start, remove the row at index
start. -/
def removeFromAux (start : Nat) : Nat → List α → List α
  | 0, rows => rows
  | fuel + 1, rows =>
    if rows.length ≤ start then rows
    else removeFromAux start fuel (rows.eraseIdx start)

/-- remove_rows_from from risk_table5.py: the removal loop with enough fuel
to terminate. -/
def remove_rows_from (rows : List α) (start : Nat) : List α :=
  removeFromAux start rows.length rows

/-- The backwards removal loop of process_equipment_table, with explicit
fuel: repeatedly drop the last row until only keep rows are left. -/
def removeTailAux (keep : Nat) : Nat → List α → List α
  | 0, rows => rows
  | fuel + 1, rows =>
    if rows.length ≤ keep then rows
    else removeTailAux keep fuel rows.dropLast

/-- The backwards removal loop of process_equipment_table and
process_rooms_table with enough fuel to terminate. -/
def removeTailRows (rows : List α) (keep : Nat) : List α :=
  removeTailAux keep rows.length rows

lemma removeFromAux_eq_take (start fuel : Nat) (rows : List α)
    (hf : rows.length ≤ fuel) : removeFromAux start fuel rows = rows.take start := by
  induction fuel generalizing rows with
  | zero =>
    have hnil : rows = [] := List.eq_nil_of_length_eq_zero (by omega)
    subst hnil
    simp [removeFromAux]
  | succ m ih =>
    unfold removeFromAux
    split
    next h => exact (List.take_of_length_le h).symm
    next h =>
      rw [ih (rows.eraseIdx start) (by rw [List.length_eraseIdx, if_pos (by omega)]; omega),
        List.eraseIdx_eq_take_drop_succ, List.take_append_eq_append_take,
        List.length_take]
      have h1 : start ≤ rows.length := by omega
      rw [List.take_take, List.take_drop]
      have h2 : min start (min start rows.length) = start := by omega
      have h3 : start - min start rows.length = 0 := by omega
      simp [h2, h3]

lemma remove_rows_from_eq_take (rows : List α) (start : Nat) :
    remove_rows_from rows start = rows.take start :=
  removeFromAux_eq_take start rows.length rows le_rfl

lemma removeTailAux_eq_take (keep fuel : Nat) (rows : List α)
    (hf : rows.length ≤ fuel) : removeTailAux keep fuel rows = rows.take keep := by
  induction fuel generalizing rows with
  | zero =>
    have hnil : rows = [] := List.eq_nil_of_length_eq_zero (by omega)
    subst hnil
    simp [removeTailAux]
  | succ m ih =>
    unfold removeTailAux
    split
    next h => exact (List.take_of_length_le h).symm
    next h =>
      rw [ih rows.dropLast (by rw [List.length_dropLast]; omega),
        List.dropLast_eq_take, List.take_take]
      have hmin : min keep (rows.length - 1) = keep := by omega
      rw [hmin]

lemma removeTailRows_eq_take (rows : List α) (keep : Nat) :
    removeTailRows rows keep = rows.take keep :=
  removeTailAux_eq_take keep rows.length rows le_rfl
lemma findIdxO_lt_length (p : α → Bool) (l : List α) (i : Nat)
    (h : findIdxO p l = some i) : i < l.length := by
  induction l generalizing i with
  | nil => exact absurd h (by simp [findIdxO])
  | cons a as ih =>
    unfold findIdxO at h
    split at h
    next =>
      simp at h
      simp only [List.length_cons]
      omega
    next =>
      rcases ho : findIdxO p as with _ | j
      · rw [ho] at h; simp at h
      · rw [ho] at h
        simp at h
        have := ih j ho
        simp only [List.length_cons]
        omega

lemma foldl_append_singleton (f : α → β) (l : List α) (acc : List β) :
    l.foldl (fun a x => a ++ [f x]) acc = acc ++ l.map f := by
  induction l generalizing acc with
  | nil => simp
  | cons x xs ih => simp [ih]

/-- Equipment record as read from the spreadsheet dialog. -/
structure Equip where
  name_sn : String
  params : String
  cert : String
  date : String
  unti : String
  deriving DecidableEq, Repr

/-- The combined calibration-date cell value of process_equipment_table:
date slash until, stripped of spaces and slashes at both ends. -/
def equip_date_full (e : Equip) : String :=
  ⟨stripCharsL (fun c => c = ' ' ∨ c = '/')
    (stripL e.date.data ++ (' ' :: '/' :: ' ' :: []) ++ stripL e.unti.data)⟩

/-- The four values written into a cloned equipment row, in column order. -/
def equipValues (e : Equip) : List String :=
  [e.name_sn, e.params, e.cert, equip_date_full e]

/-- Does a row carry one of the placeholders at-1 through at-4 in some cell
(the template-row detector of process_equipment_table)? -/
def hasEquipPH (r : DocRow) : Bool :=
  r.any fun c => ["@1", "@2", "@3", "@4"].any fun ph => containsSeg ph.data (cellText c).data

/-- Fill one clone of the equipment template row: every cell is cleared (all
runs removed from all paragraphs) and the column value, or the empty string
past column four, is written into the first paragraph. -/
def fillEquipRow (tpl : DocRow) (e : Equip) : DocRow :=
  tpl.mapIdx fun ci cell => (equipValues e).getD ci "" :: List.replicate (cell.length - 1) ""

/-- process_equipment_table from table_processor.py on the located table:
find the template row carrying at-placeholders (error when absent), remove it
and every row after it, then append one filled clone per equipment record. -/
def process_equipment_table (rows : List DocRow) (equipment : List Equip) :
    Option (List DocRow) :=
  match findIdxO hasEquipPH rows with
  | none => none
  | some i =>
    let sample := rows.getD i []
    equipment.foldl (fun acc e => acc ++ [fillEquipRow sample e]) (removeTailRows rows i)
    |> some

/-- set_cell_lines from risk_table5.py: pad the cell to at least the needed
paragraph count, write each line into its paragraph, blank the rest; an empty
line list writes one empty line. -/
def set_cell_lines (cell : List String) (lines : List String) : List String :=
  let ls := if lines = [] then [""] else lines
  ls ++ List.replicate (cell.length - ls.length) ""

/-- set_diag_cell from risk_table5.py at text granularity: first paragraph
carries the letter, second the score, the rest are blanked (alignment and
spacing of the two paragraphs are formatting only and not modelled). -/
def set_diag_cell (cell : List String) (top bottom : String) : List String :=
  [top, bottom] ++ List.replicate (cell.length - 2) ""

/-- Does a row carry the Table-5 placeholder marker in some cell? -/
def hasT5PH (r : DocRow) : Bool :=
  r.any fun c => containsSeg "<<T5_RISK>>".data (cellText c).data

/-- Fill the seven visual columns of one cloned Table-5 row; a template row
with fewer than seven cells makes the Python code fail with an IndexError,
modelled as none. -/
def fillT5Go (tpl : DocRow) (rr : RiskRow) : DocRow :=
  let lines := (rr.tests.filter fun t => stripL t.data ≠ []).map fun t => "•→" ++ t
  ((((((tpl.set 0 (set_cell_lines (tpl.getD 0 []) [rr.risk])).set 1
      (set_cell_lines (tpl.getD 1 []) [rr.cause])).set 2
      (set_diag_cell (tpl.getD 2 []) rr.prob_letter rr.prob_score)).set 3
      (set_diag_cell (tpl.getD 3 []) rr.sev_letter rr.sev_score)).set 4
      (set_diag_cell (tpl.getD 4 []) rr.det_letter rr.det_score)).set 5
      (set_diag_cell (tpl.getD 5 []) rr.level_letter rr.rpn)).set 6
      (set_cell_lines (tpl.getD 6 []) (if lines = [] then [""] else lines))

/-- One filled Table-5 row, or none when the template is too narrow. -/
def fillT5Row (tpl : DocRow) (rr : RiskRow) : Option DocRow :=
  if tpl.length < 7 then none else some (fillT5Go tpl rr)

/-- The expansion phase of insert_table5_into_doc from risk_table5.py (lines
330 to 360): find the placeholder row (error when absent), remove it and all
rows below, then append one filled clone of it per risk row.  The subsequent
conditional vertical merge of equal adjacent risk cells rewrites cells in
place and never changes the row list. -/
def insert_table5_expand (rows : List DocRow) (risk_rows : List RiskRow) :
    Option (List DocRow) :=
  match findIdxO hasT5PH rows with
  | none => none
  | some i =>
    let tpl := rows.getD i []
    risk_rows.foldl
      (fun acc rr =>
        match acc with
        | none => none
        | some l =>
          match fillT5Row tpl rr with
          | none => none
          | some r => some (l ++ [r]))
      (some (remove_rows_from rows i))

lemma insert_table5_fold (tpl : DocRow) (hw : 7 ≤ tpl.length)
    (risk_rows : List RiskRow) (init : List DocRow) :
    risk_rows.foldl
      (fun acc rr =>
        match acc with
        | none => none
        | some l =>
          match fillT5Row tpl rr with
          | none => none
          | some r => some (l ++ [r]))
      (some init) = some (init ++ risk_rows.map (fillT5Go tpl)) := by
  induction risk_rows generalizing init with
  | nil => simp
  | cons rr rest ih =>
    have hfill : fillT5Row tpl rr = some (fillT5Go tpl rr) := by
      unfold fillT5Row
      rw [if_neg (by omega)]
    simp only [List.foldl_cons, hfill, ih]
    simp


/-- Room record as passed to process_rooms_table. -/
structure Room where
  num : String
  name : String
  klass : String
  area : String
  volume : String
  dp : String
  airflow : String
  exchange : String
  temp : String
  rh : String
  deriving DecidableEq, Repr

/-- The placeholder-to-field dictionary ph2key of process_rooms_table. -/
def roomField (room : Room) (ph : String) : Option String :=
  if ph = "#" then some room.num
  else if ph = "##" then some room.name
  else if ph = "###" then some room.klass
  else if ph = "####" then some room.area
  else if ph = "#$" then some room.volume
  else if ph = "#$$" then some room.dp
  else if ph = "#$$$" then some room.airflow
  else if ph = "#%" then some room.exchange
  else if ph = "#%%" then some room.temp
  else if ph = "#%%%" then some room.rh
  else none

/-- Does a row carry a rooms-table placeholder: some cell whose stripped text
is one of the ph2key tokens? -/
def hasRoomPH (r : DocRow) : Bool :=
  r.any fun c =>
    (["#", "##", "###", "####", "#$", "#$$", "#$$$", "#%", "#%%", "#%%%"].contains
      (⟨stripL (cellText c).data⟩ : String))

/-- Fill one clone of the rooms template row: each cell is blanked and, when
its stripped template text was a placeholder token, receives the corresponding
room field as its single paragraph. -/
def fillRoomRow (tpl : DocRow) (room : Room) : DocRow :=
  tpl.map fun cell =>
    match roomField room ⟨stripL (cellText cell).data⟩ with
    | some v => [v]
    | none => [""]

/-- process_rooms_table from table_processor.py on the located table: find the
placeholder row among the rows after the header row (error when absent),
remove every row except row 0, then append one filled clone per room. -/
def process_rooms_table (rows : List DocRow) (rooms : List Room) :
    Option (List DocRow) :=
  match findIdxO hasRoomPH (rows.drop 1) with
  | none => none
  | some k =>
    let sample := (rows.drop 1).getD k []
    rooms.foldl (fun acc room => acc ++ [fillRoomRow sample room])
      (remove_rows_from rows 1)
    |> some

/-- C8.  When the template row is found at index i (so i header rows precede
it), row-template expansion with no grouping removes every row from the
template row to the end and appends exactly one filled clone of the template
per record: the result is the i untouched header rows followed by one row per
record, hence exactly i plus N rows, for both the equipment expander and the
Table-5 expander (whose template must span the seven visual columns). -/
theorem expand_row_count (rows rows5 : List DocRow) (eqs : List Equip)
    (rrs : List RiskRow) (i j : Nat)
    (hi : findIdxO hasEquipPH rows = some i)
    (hj : findIdxO hasT5PH rows5 = some j)
    (hw : 7 ≤ (rows5.getD j []).length) :
    process_equipment_table rows eqs
        = some (rows.take i ++ eqs.map (fillEquipRow (rows.getD i [])))
    ∧ (∀ out, process_equipment_table rows eqs = some out →
        out.length = i + eqs.length)
    ∧ insert_table5_expand rows5 rrs
        = some (rows5.take j ++ rrs.map (fillT5Go (rows5.getD j [])))
    ∧ (∀ out, insert_table5_expand rows5 rrs = some out →
        out.length = j + rrs.length) := by
  have hi2 := findIdxO_lt_length _ _ _ hi
  have hj2 := findIdxO_lt_length _ _ _ hj
  have he : process_equipment_table rows eqs
      = some (rows.take i ++ eqs.map (fillEquipRow (rows.getD i []))) := by
    unfold process_equipment_table
    rw [hi]
    simp only [removeTailRows_eq_take, foldl_append_singleton]
  have ht : insert_table5_expand rows5 rrs
      = some (rows5.take j ++ rrs.map (fillT5Go (rows5.getD j []))) := by
    simp only [insert_table5_expand, hj]
    rw [insert_table5_fold _ hw, remove_rows_from_eq_take]
  refine ⟨he, ?_, ht, ?_⟩
  · intro out hout
    rw [he, Option.some.injEq] at hout
    subst hout
    simp only [List.length_append, List.length_take, List.length_map]
    omega
  · intro out hout
    rw [ht, Option.some.injEq] at hout
    subst hout
    simp only [List.length_append, List.length_take, List.length_map]
    omega

/-- A concrete minimal Table-5 skeleton: one header row and a seven-column
placeholder row. -/
def t5TableEx : List DocRow :=
  [[["Риск"]], [["<<T5_RISK>>"], [""], [""], [""], [""], [""], [""]]]

/-- A concrete minimal equipment skeleton: one header row and the template row
with the four at-placeholders. -/
def eqTableEx : List DocRow :=
  [[["Наименование, заводской номер"]], [["@1"], ["@2"], ["@3"], ["@4"]]]

/-- Witness for the C8 theorem on the concrete skeletons with one record. -/
theorem expand_row_count_witness :
    process_equipment_table eqTableEx [⟨"весы", "0-100", "123", "2024", "2026"⟩]
      = some (eqTableEx.take 1 ++
          [(⟨"весы", "0-100", "123", "2024", "2026"⟩ : Equip)].map
            (fillEquipRow (eqTableEx.getD 1 []))) :=
  (expand_row_count eqTableEx t5TableEx [⟨"весы", "0-100", "123", "2024", "2026"⟩]
    [] 1 1 (by decide) (by decide) (by decide)).1

/-- C9.  The claim as stated is false: with an empty record list the expanders
do not keep an emptied template row; on this concrete rooms table with one
header row and one placeholder row the output keeps only the header row, so
it does not have at least two rows as keeping the emptied template row would
require, and no caller-side permission switch exists. -/
theorem expand_zero_records_counterexample :
    ((process_rooms_table [[["Номер помещения"]], [["#"]]] []).getD []).length = 1
    ∧ ¬ (2 ≤ ((process_rooms_table [[["Номер помещения"]], [["#"]]] []).getD []).length) := by
  decide

/-- C9 (amended).  With an empty record list the expanders remove the template
row together with every row below it and append nothing: the rooms table
keeps exactly its header row (row 0) and the Table-5 expander keeps exactly
the rows above the placeholder row; no emptied template row is retained. -/
theorem expand_zero_records (rows rows5 : List DocRow) (k j : Nat)
    (hk : findIdxO hasRoomPH (rows.drop 1) = some k)
    (hj : findIdxO hasT5PH rows5 = some j) :
    process_rooms_table rows [] = some (rows.take 1)
    ∧ insert_table5_expand rows5 [] = some (rows5.take j) := by
  constructor
  · unfold process_rooms_table
    rw [hk]
    simp [remove_rows_from_eq_take]
  · unfold insert_table5_expand
    rw [hj]
    simp [remove_rows_from_eq_take]

/-- Witness for the amended C9 theorem on the concrete skeletons. -/
theorem expand_zero_records_witness :
    process_rooms_table [[["Номер помещения"]], [["#"]]] []
      = some ([[["Номер помещения"]], [["#"]]].take 1) :=
  (expand_zero_records [[["Номер помещения"]], [["#"]]] t5TableEx 0 1
    (by decide) (by decide)).1

-- ---------------------------------------------------------------------------
-- risk_table5.split_table5_like_example: body-level page-boundary splitting
-- ---------------------------------------------------------------------------

/-- norm_ws from risk_table5.py: replace non-breaking spaces by spaces,
collapse whitespace runs and strip. -/
def normWsL (l : List Char) : List Char :=
  stripL (collapseRuns (l.map fun c => if c = ' ' then ' ' else c))

/-- A word character of the regular-expression word boundary in unicode mode,
for the alphabets appearing in the documents: ASCII alphanumerics, the
underscore and the Cyrillic block. -/
def isWordChar (c : Char) : Bool :=
  c.isAlphanum || c == '_' || (0x400 ≤ c.toNat && c.toNat ≤ 0x4FF)

/-- Drop a mandatory leading segment, or fail. -/
def dropSeg (pre l : List Char) : Option (List Char) :=
  if leadsList pre l then some (l.drop pre.length) else none

/-- Is there a word boundary between a word character and this remainder? -/
def boundaryOk : List Char → Bool
  | [] => true
  | c :: _ => ¬ isWordChar c

/-- The caption test of find_caption_and_first_table5: the case-insensitive
regular expression anchored at the start, word Tablitsa, optional spaces, the
digit five and a word boundary, applied to the normalised paragraph text. -/
def capMatch (l : List Char) : Bool :=
  match dropSeg "таблица".data (l.map lowerRu) with
  | none => false
  | some r =>
    match r.dropWhile isPySpace with
    | '5' :: rest => boundaryOk rest
    | _ => false

/-- The continuation-caption test of the repeated-run guard: the
case-insensitive regular expression anchored at the start, word Prodolzhenie,
at least one space, word tablitsy, optional spaces, the digit five and a word
boundary. -/
def contMatch (l : List Char) : Bool :=
  match dropSeg "продолжение".data (l.map lowerRu) with
  | none => false
  | some r =>
    match r with
    | c :: _ =>
      if isPySpace c then
        match dropSeg "таблицы".data (r.dropWhile isPySpace) with
        | none => false
        | some r2 =>
          match r2.dropWhile isPySpace with
          | '5' :: rest => boundaryOk rest
          | _ => false
      else false
    | [] => false

/-- A block-level child of the document body: a paragraph carrying its text
and whether it holds a page-break run, or a table carrying the identities of
its w:tr children. -/
inductive Blk where
  | par (text : String) (pageBreak : Bool)
  | tbl (rows : List Nat)
  deriving DecidableEq, Repr

/-- Is this body child a paragraph whose normalised text matches the
Tablitsa-5 caption pattern? -/
def isCapPar : Blk → Bool
  | .par t _ => capMatch (normWsL t.data)
  | .tbl _ => false

/-- Is this body child a paragraph whose normalised text matches the
continuation-caption pattern? -/
def isContPar : Blk → Bool
  | .par t _ => contMatch (normWsL t.data)
  | .tbl _ => false

/-- First table among the body children, with its index and rows. -/
def findTblO : List Blk → Option (Nat × List Nat)
  | [] => none
  | .tbl rs :: _ => some (0, rs)
  | .par _ _ :: bs => (findTblO bs).map fun p => (p.1 + 1, p.2)

/-- find_caption_and_first_table5 from risk_table5.py: the body index of the
first caption paragraph, then the body index and rows of the first table
after it. -/
def locateTable5 (body : List Blk) : Option (Nat × List Nat) :=
  match findIdxO isCapPar body with
  | none => none
  | some ci =>
    match findTblO (body.drop (ci + 1)) with
    | none => none
    | some (k, rs) => some (ci + 1 + k, rs)

/-- The repeated-run guard of split_table5_like_example: does one of the at
most seven body children after the table match the continuation caption? -/
def isContGuardHit (body : List Blk) (ti : Nat) : Bool :=
  ((body.drop (ti + 1)).take 7).any isContPar

/-- The continuation chunking loop of split_table5_like_example, with fuel
(one unit per produced chunk suffices since every chunk consumes at least one
row when the page size is positive). -/
def chunksAux : Nat → Nat → List Nat → List (List Nat)
  | 0, _, _ => []
  | _ + 1, _, [] => []
  | fuel + 1, n, l@(_ :: _) => l.take n :: chunksAux fuel n (l.drop n)

/-- The chunks of data rows for the continuation tables. -/
def chunksRest (n : Nat) (l : List Nat) : List (List Nat) := chunksAux l.length n l

/-- The text of the inserted continuation caption paragraph. -/
def contCaptionText : String := "Продолжение таблицы 5"

/-- The body children inserted after the first fragment, in order, for each
continuation chunk: a page-break paragraph, the continuation caption and a
table carrying (copies of) the rows of the chunk. -/
def contBlocksFor (parts : List (List Nat)) : List Blk :=
  (parts.map fun part =>
    [Blk.par "" true, Blk.par contCaptionText false, Blk.tbl part]).flatten

/-- split_table5_like_example from risk_table5.py: locate the Tablitsa-5
caption and its table (no-op when absent), return unchanged when a
continuation caption already follows the table, when the table has no rows
beyond the header block or when all data rows fit the first-page budget;
otherwise trim the first table to the header rows plus the first-page chunk
and insert, after it, a page break, a continuation caption and a data-only
table for every remaining chunk. -/
def split_table5_like_example (header_rows first_page_data_rows next_page_data_rows : Nat)
    (body : List Blk) : List Blk :=
  match locateTable5 body with
  | none => body
  | some (ti, tr_list) =>
    if isContGuardHit body ti then body
    else if tr_list.length ≤ header_rows then body
    else
      let header_trs := tr_list.take header_rows
      let data_trs := tr_list.drop header_rows
      if data_trs.length ≤ first_page_data_rows then body
      else
        let keep_first := header_trs ++ data_trs.take first_page_data_rows
        let newFirst := tr_list.filter fun tr => tr ∈ keep_first
        let parts := chunksRest next_page_data_rows (data_trs.drop first_page_data_rows)
        body.take ti ++ (Blk.tbl newFirst :: contBlocksFor parts) ++ body.drop (ti + 1)

/-- The row lists of the tables among the body children, in order. -/
def tablesIn (body : List Blk) : List (List Nat) :=
  body.filterMap fun b =>
    match b with
    | .tbl rs => some rs
    | .par _ _ => none

/-- The running example of the C1 scenario: the Tablitsa-5 caption followed
by a table of two header rows and ten data rows, the rows numbered zero to
eleven. -/
def exBody : List Blk := [.par "Таблица 5" false, .tbl (List.range 12)]

-- ---------------------------------------------------------------------------
-- word_test11_splitter.split_after_results_and_repeat_header
-- ---------------------------------------------------------------------------

/-- norm from word_test11_splitter.py: replace non-breaking spaces, fold yo
to ye before lowering, collapse whitespace runs, strip and lower. -/
def normT11L (l : List Char) : List Char :=
  (stripL (collapseRuns (l.map fun c =>
    if c = ' ' ∨ c = ' ' then ' ' else if c = 'ё' then 'е' else c))).map lowerRu

/-- A row of the test-11 results table: its cells (paragraph texts) and the
repeat-as-header flag from its row properties. -/
structure RowT11 where
  cells : List (List String)
  tblHeader : Bool
  deriving DecidableEq, Repr

/-- The results-row test of split_after_results_and_repeat_header: the
normalised joined cell text equals or contains the normalised needle. -/
def rowMatchesResults (needle : String) (r : RowT11) : Bool :=
  let rt := normT11L (String.intercalate " " (r.cells.map cellText)).data
  let nd := normT11L needle.data
  nd == rt || containsSeg nd rt

/-- set_repeat_header_rows_on_tbl_el from word_test11_splitter.py: flag the
first header_rows rows of the new table as repeating headers. -/
def markRepeatHeader : Nat → List RowT11 → List RowT11
  | _, [] => []
  | 0, rows => rows
  | k + 1, r :: rest => { r with tblHeader := true } :: markRepeatHeader k rest

/-- split_after_results_and_repeat_header from word_test11_splitter.py on the
located table: find the results row, fail (none, Python returns False) when
absent or when it is the last row, otherwise keep the rows up to and
including it in the old table and move the remaining rows into a new table
whose first header_rows rows are flagged as repeating headers. -/
def split_after_results_and_repeat_header (rows : List RowT11) (header_rows : Nat)
    (results_row_text : String) : Option (List RowT11 × List RowT11) :=
  match findIdxO (rowMatchesResults results_row_text) rows with
  | none => none
  | some ri =>
    let s := ri + 1
    if rows.length ≤ s then none
    else some (rows.take s, markRepeatHeader header_rows (rows.drop s))

-- Lemmas about the splitter building blocks.

lemma tablesIn_append (a b : List Blk) : tablesIn (a ++ b) = tablesIn a ++ tablesIn b :=
  List.filterMap_append a b _

lemma tablesIn_cons_tbl (rs : List Nat) (l : List Blk) :
    tablesIn (Blk.tbl rs :: l) = rs :: tablesIn l := by
  simp [tablesIn]

lemma tablesIn_cons_par (t : String) (pb : Bool) (l : List Blk) :
    tablesIn (Blk.par t pb :: l) = tablesIn l := by
  simp [tablesIn]

lemma contBlocksFor_cons (p : List Nat) (ps : List (List Nat)) :
    contBlocksFor (p :: ps)
      = Blk.par "" true :: Blk.par contCaptionText false :: Blk.tbl p
          :: contBlocksFor ps := by
  simp [contBlocksFor]

lemma tablesIn_contBlocksFor (parts : List (List Nat)) :
    tablesIn (contBlocksFor parts) = parts := by
  induction parts with
  | nil => rfl
  | cons p ps ih =>
    rw [contBlocksFor_cons, tablesIn_cons_par, tablesIn_cons_par, tablesIn_cons_tbl, ih]

lemma chunksAux_flatten (n : Nat) (hn : 0 < n) (fuel : Nat) :
    ∀ l : List Nat, l.length ≤ fuel → (chunksAux fuel n l).flatten = l := by
  induction fuel with
  | zero =>
    intro l hl
    have : l = [] := List.eq_nil_of_length_eq_zero (by omega)
    subst this
    rfl
  | succ m ih =>
    intro l hl
    cases l with
    | nil => rfl
    | cons a as =>
      rw [show chunksAux (m + 1) n (a :: as)
          = (a :: as).take n :: chunksAux m n ((a :: as).drop n) from rfl]
      rw [List.flatten_cons, ih ((a :: as).drop n)
        (by rw [List.length_drop]; simp only [List.length_cons] at hl ⊢; omega)]
      exact List.take_append_drop n (a :: as)

lemma chunksRest_flatten (n : Nat) (hn : 0 < n) (l : List Nat) :
    (chunksRest n l).flatten = l :=
  chunksAux_flatten n hn l.length l le_rfl

lemma chunksRest_ne_nil (n : Nat) (l : List Nat) (hl : l ≠ []) :
    chunksRest n l ≠ [] := by
  cases l with
  | nil => exact absurd rfl hl
  | cons a as => simp [chunksRest, chunksAux]

lemma filter_mem_take (l : List Nat) (n : Nat) (hnd : l.Nodup) :
    (l.filter fun x => x ∈ l.take n) = l.take n := by
  induction l generalizing n with
  | nil => simp
  | cons a as ih =>
    rw [List.nodup_cons] at hnd
    obtain ⟨ha, hnd2⟩ := hnd
    cases n with
    | zero => simp
    | succ m =>
      rw [List.take_succ_cons, List.filter_cons, if_pos (by simp)]
      have hcong : ∀ x ∈ as, decide (x ∈ a :: as.take m) = decide (x ∈ as.take m) := by
        intro x hx
        have hxa : x ≠ a := fun he => ha (he ▸ hx)
        simp [List.mem_cons, hxa]
      rw [List.filter_congr hcong, ih m hnd2]

/-- C1.  The claim as stated is false on the example document: the scenario
table splits into fragments whose row lists are the two header rows plus the
first four data rows, and then the remaining six data rows only; the
continuation table is built without a clone of the header rows, so the
claimed fragment shape with a cloned header block does not occur. -/
theorem split_example_counterexample :
    ¬ (tablesIn (split_table5_like_example 2 4 6 exBody)
        = [[0, 1, 2, 3, 4, 5], [0, 1, 6, 7, 8, 9, 10, 11]]) := by
  decide

/-- C1 (amended).  On a table of two header rows and ten data rows with a
first-page budget of four data rows, split_table5_like_example produces
fragment A with the two header rows plus the first four data rows, exactly
one continuation caption (preceded by a page-break paragraph) between the
fragments, and fragment B consisting of the remaining six data rows only,
without any clone of the header rows. -/
theorem split_example_result :
    split_table5_like_example 2 4 6 exBody =
      [Blk.par "Таблица 5" false, Blk.tbl [0, 1, 2, 3, 4, 5],
       Blk.par "" true, Blk.par contCaptionText false,
       Blk.tbl [6, 7, 8, 9, 10, 11]]
    ∧ (split_table5_like_example 2 4 6 exBody).countP isContPar = 1 := by
  decide

/-- C4.  Whenever the caption or its table is not found, or the table has no
rows beyond the header block, or all data rows fit within the first-page
budget, split_table5_like_example returns the body completely unchanged: no
mutating operation happens before every precondition has been checked, and
the absence of a valid split point is a no-op, not an error. -/
theorem split_noop_unchanged (h f n : Nat) (body : List Blk)
    (hcase : locateTable5 body = none
      ∨ ∃ ti trs, locateTable5 body = some (ti, trs) ∧
          (trs.length ≤ h ∨ (trs.drop h).length ≤ f)) :
    split_table5_like_example h f n body = body := by
  rcases hcase with hnone | ⟨ti, trs, hloc, hcond⟩
  · simp only [split_table5_like_example, hnone]
  · simp only [split_table5_like_example, hloc]
    by_cases hg : isContGuardHit body ti = true
    · rw [if_pos hg]
    · by_cases hlen2 : trs.length ≤ h
      · rw [if_neg hg, if_pos hlen2]
      · rcases hcond with hlen | hdata
        · exact absurd hlen hlen2
        · rw [if_neg hg, if_neg hlen2, if_pos hdata]

/-- Witness for the C4 theorem: the empty body has no caption. -/
theorem split_noop_unchanged_witness :
    split_table5_like_example 2 4 6 [] = [] :=
  split_noop_unchanged 2 4 6 [] (Or.inl rfl)

lemma markRepeatHeader_cells (k : Nat) (l : List RowT11) :
    (markRepeatHeader k l).map RowT11.cells = l.map RowT11.cells := by
  induction l generalizing k with
  | nil => cases k <;> rfl
  | cons r rest ih =>
    cases k with
    | zero => rfl
    | succ m => simp [markRepeatHeader, ih]

/-- C2.  The claim as stated is false: header rows are not cloned into the
continuation fragment at the fragment boundary; on the example document the
second fragment holds only the six remaining data rows and neither header row
(row 0 or 1) occurs in it. -/
theorem split_headers_not_cloned_counterexample :
    (tablesIn (split_table5_like_example 2 4 6 exBody)).getD 1 [] = [6, 7, 8, 9, 10, 11]
    ∧ ¬ ((0 : Nat) ∈ (tablesIn (split_table5_like_example 2 4 6 exBody)).getD 1 []) := by
  decide

/-- C2 (amended).  When a split is performed on a table with pairwise
distinct rows, the row lists of the produced fragments concatenate, in order,
to exactly the original row list: every row appears in exactly one fragment,
relative order is preserved within and across fragments, and no row, header
rows included, is duplicated — split_table5_like_example does not clone the
header block into continuation fragments.  The test-11 splitter likewise
partitions its table: the cell contents of the two resulting tables
concatenate to the original rows, the continuation table merely having its
leading rows flagged as repeating headers. -/
theorem split_preserves_rows (h f n : Nat) (body : List Blk) (ti : Nat)
    (trs : List Nat)
    (hloc : locateTable5 body = some (ti, trs))
    (hg : isContGuardHit body ti = false)
    (hh : h < trs.length)
    (hf : f < (trs.drop h).length)
    (hnd : trs.Nodup)
    (hn : 0 < n) :
    (∃ frags : List (List Nat),
        tablesIn (split_table5_like_example h f n body)
          = tablesIn (body.take ti) ++ frags ++ tablesIn (body.drop (ti + 1))
        ∧ frags.flatten = trs)
    ∧ (∀ (rows : List RowT11) (hr : Nat) (needle : String) (a b : List RowT11),
        split_after_results_and_repeat_header rows hr needle = some (a, b) →
          a.map RowT11.cells ++ b.map RowT11.cells = rows.map RowT11.cells) := by
  constructor
  · refine ⟨(trs.filter fun tr => tr ∈ trs.take h ++ (trs.drop h).take f) ::
      chunksRest n ((trs.drop h).drop f), ?_, ?_⟩
    · simp only [split_table5_like_example, hloc]
      rw [if_neg (by rw [hg]; simp), if_neg (by omega), if_neg (by omega)]
      rw [tablesIn_append, tablesIn_append, tablesIn_cons_tbl, tablesIn_contBlocksFor]
    · rw [List.flatten_cons]
      have hkeep : trs.take h ++ (trs.drop h).take f = trs.take (h + f) :=
        (List.take_add trs h f).symm
      simp only [hkeep]
      rw [filter_mem_take trs (h + f) hnd, chunksRest_flatten n hn, List.drop_drop]
      exact List.take_append_drop (h + f) trs
  · intro rows hr needle a b hsp
    unfold split_after_results_and_repeat_header at hsp
    rcases hfind : findIdxO (rowMatchesResults needle) rows with _ | ri
    · rw [hfind] at hsp
      exact absurd hsp (by simp)
    · rw [hfind] at hsp
      simp only at hsp
      by_cases hlen : rows.length ≤ ri + 1
      · rw [if_pos hlen] at hsp
        exact absurd hsp (by simp)
      · rw [if_neg hlen, Option.some.injEq, Prod.mk.injEq] at hsp
        obtain ⟨ha, hb⟩ := hsp
        subst ha
        subst hb
        rw [markRepeatHeader_cells, ← List.map_append, List.take_append_drop]

/-- Witness for the amended C2 theorem on the example document. -/
theorem split_preserves_rows_witness :
    ∃ frags : List (List Nat),
      tablesIn (split_table5_like_example 2 4 6 exBody)
        = tablesIn (exBody.take 1) ++ frags ++ tablesIn (exBody.drop 2)
      ∧ frags.flatten = List.range 12 :=
  (split_preserves_rows 2 4 6 exBody 1 (List.range 12) (by decide) (by decide)
    (by decide) (by decide) (by decide) (by decide)).1

-- Lemmas about locating the caption and the table in a modified body.

lemma findIdxO_append (p : α → Bool) (l₁ l₂ : List α) :
    findIdxO p (l₁ ++ l₂)
      = match findIdxO p l₁ with
        | some i => some i
        | none => (findIdxO p l₂).map (· + l₁.length) := by
  induction l₁ with
  | nil =>
    simp only [List.nil_append, findIdxO]
    cases hf : findIdxO p l₂ with
    | none => rfl
    | some j => simp
  | cons a as ih =>
    simp only [List.cons_append, findIdxO]
    by_cases hp : p a = true
    · rw [if_pos hp, if_pos hp]
    · rw [if_neg hp, if_neg hp, show (as.append l₂ : List α) = as ++ l₂ from rfl, ih]
      cases hf : findIdxO p as with
      | some i => rfl
      | none =>
        cases hf2 : findIdxO p l₂ with
        | none => rfl
        | some j => simp [Nat.add_assoc]

lemma findIdxO_take (p : α → Bool) (l : List α) (i m : Nat)
    (h : findIdxO p l = some i) (him : i < m) :
    findIdxO p (l.take m) = some i := by
  have hsplit := findIdxO_append p (l.take m) (l.drop m)
  rw [List.take_append_drop, h] at hsplit
  cases hf : findIdxO p (l.take m) with
  | some j =>
    rw [hf] at hsplit
    simp at hsplit
    rw [hsplit]
  | none =>
    rw [hf] at hsplit
    exfalso
    cases hf2 : findIdxO p (l.drop m) with
    | none =>
      rw [hf2] at hsplit
      simp at hsplit
    | some j =>
      rw [hf2] at hsplit
      simp at hsplit
      have hil := findIdxO_lt_length p l i h
      omega

lemma findTblO_append (l₁ l₂ : List Blk) :
    findTblO (l₁ ++ l₂)
      = match findTblO l₁ with
        | some q => some q
        | none => (findTblO l₂).map fun q => (q.1 + l₁.length, q.2) := by
  induction l₁ with
  | nil =>
    simp only [List.nil_append, findTblO]
    cases hf : findTblO l₂ with
    | none => rfl
    | some q => simp
  | cons b bs ih =>
    cases b with
    | tbl rs => rfl
    | par t pb =>
      simp only [List.cons_append, findTblO]
      rw [show (bs.append l₂ : List Blk) = bs ++ l₂ from rfl, ih]
      cases hf : findTblO bs with
      | some q => rfl
      | none =>
        cases hf2 : findTblO l₂ with
        | none => rfl
        | some q => simp [Nat.add_assoc]

lemma findTblO_split (T : List Blk) (k : Nat) (rs : List Nat)
    (h : findTblO T = some (k, rs)) :
    findTblO (T.take k) = none ∧ T.drop k = Blk.tbl rs :: T.drop (k + 1)
      ∧ k < T.length := by
  induction T generalizing k rs with
  | nil => exact absurd h (by simp [findTblO])
  | cons b bs ih =>
    cases b with
    | tbl rs2 =>
      have h2 : (0, rs2) = (k, rs) := by simpa [findTblO] using h
      obtain ⟨hk, hrs⟩ := Prod.mk.injEq 0 rs2 k rs ▸ h2
      subst hk
      subst hrs
      exact ⟨rfl, rfl, by simp⟩
    | par t pb =>
      simp only [findTblO] at h
      cases hf : findTblO bs with
      | none =>
        rw [hf] at h
        exact absurd h (by simp)
      | some q =>
        rw [hf] at h
        simp only [Option.map_some'] at h
        rw [Option.some.injEq, Prod.mk.injEq] at h
        obtain ⟨hk, hrs⟩ := h
        obtain ⟨ih1, ih2, ih3⟩ := ih q.1 q.2 (by rw [hf])
        subst hk
        subst hrs
        refine ⟨?_, ?_, ?_⟩
        · rw [List.take_succ_cons]
          simp only [findTblO, ih1]
          rfl
        · rw [List.drop_succ_cons, List.drop_succ_cons]
          exact ih2
        · simp only [List.length_cons]
          omega

lemma contPar_capText : isContPar (Blk.par contCaptionText false) = true := by decide

lemma contPar_pageBreak : isContPar (Blk.par "" true) = false := by decide

lemma split_noop_on_result (h f n : Nat) (A : List Blk) (ci : Nat) (NF : List Nat)
    (parts : List (List Nat)) (p : List Nat) (ps : List (List Nat)) (B : List Blk)
    (hcapA : findIdxO isCapPar A = some ci)
    (hAnone : findTblO (A.drop (ci + 1)) = none)
    (hparts : parts = p :: ps) :
    split_table5_like_example h f n (A ++ (Blk.tbl NF :: contBlocksFor parts) ++ B)
      = A ++ (Blk.tbl NF :: contBlocksFor parts) ++ B := by
  have hciLt : ci < A.length := findIdxO_lt_length _ _ _ hcapA
  have hcapB : findIdxO isCapPar (A ++ (Blk.tbl NF :: contBlocksFor parts) ++ B)
      = some ci := by
    rw [List.append_assoc, findIdxO_append, hcapA]
  have hdropEq : (A ++ (Blk.tbl NF :: contBlocksFor parts) ++ B).drop (ci + 1)
      = A.drop (ci + 1) ++ (Blk.tbl NF :: (contBlocksFor parts ++ B)) := by
    rw [List.append_assoc, List.drop_append_eq_append_drop,
      show ci + 1 - A.length = 0 from by omega]
    rfl
  have htblB : findTblO ((A ++ (Blk.tbl NF :: contBlocksFor parts) ++ B).drop (ci + 1))
      = some (A.length - (ci + 1), NF) := by
    rw [hdropEq, findTblO_append, hAnone]
    simp [findTblO, List.length_drop]
  have hlocB : locateTable5 (A ++ (Blk.tbl NF :: contBlocksFor parts) ++ B)
      = some (A.length, NF) := by
    simp only [locateTable5, hcapB, htblB]
    rw [show ci + 1 + (A.length - (ci + 1)) = A.length from by omega]
  have hdrop2 : (A ++ (Blk.tbl NF :: contBlocksFor parts) ++ B).drop (A.length + 1)
      = contBlocksFor parts ++ B := by
    rw [List.append_assoc, List.drop_append_eq_append_drop,
      List.drop_eq_nil_of_le (by omega),
      show A.length + 1 - A.length = 1 from by omega]
    rfl
  have hguard : isContGuardHit (A ++ (Blk.tbl NF :: contBlocksFor parts) ++ B)
      A.length = true := by
    unfold isContGuardHit
    rw [hdrop2, hparts, contBlocksFor_cons, List.cons_append, List.cons_append]
    rw [show ∀ X : List Blk,
          (Blk.par "" true :: Blk.par contCaptionText false :: X).take 7
            = Blk.par "" true :: Blk.par contCaptionText false :: X.take 5
        from fun X => rfl]
    rw [List.any_cons, List.any_cons, contPar_pageBreak, contPar_capText]
    simp
  simp only [split_table5_like_example, hlocB]
  rw [if_pos hguard]

/-- C3.  Running split_table5_like_example twice produces the same document
body as running it once: after a split the inserted continuation caption sits
within the guarded window after the (trimmed) table, so the second invocation
finds it and returns without mutating anything; when the first invocation was
already a no-op the second is the same no-op. -/
theorem split_table5_idempotent (h f n : Nat) (body : List Blk) :
    split_table5_like_example h f n (split_table5_like_example h f n body)
      = split_table5_like_example h f n body := by
  rcases hloc : locateTable5 body with _ | ⟨ti, trs⟩
  · have h1 : split_table5_like_example h f n body = body := by
      simp only [split_table5_like_example, hloc]
    rw [h1]
    exact h1
  · by_cases hg : isContGuardHit body ti = true
    · have h1 : split_table5_like_example h f n body = body := by
        simp only [split_table5_like_example, hloc]
        rw [if_pos hg]
      rw [h1]
      exact h1
    · by_cases hlen : trs.length ≤ h
      · have h1 : split_table5_like_example h f n body = body := by
          simp only [split_table5_like_example, hloc]
          rw [if_neg hg, if_pos hlen]
        rw [h1]
        exact h1
      · by_cases hdata : (trs.drop h).length ≤ f
        · have h1 : split_table5_like_example h f n body = body := by
            simp only [split_table5_like_example, hloc]
            rw [if_neg hg, if_neg hlen, if_pos hdata]
          rw [h1]
          exact h1
        · have hloc2 := hloc
          simp only [locateTable5] at hloc2
          rcases hcap : findIdxO isCapPar body with _ | ci
          · rw [hcap] at hloc2
            exact absurd hloc2 (by simp)
          rcases htbl : findTblO (body.drop (ci + 1)) with _ | ⟨k, trs2⟩
          · simp only [hcap, htbl] at hloc2
            exact absurd hloc2 (by simp)
          · simp only [hcap, htbl] at hloc2
            rw [Option.some.injEq, Prod.mk.injEq] at hloc2
            obtain ⟨hti, htrs⟩ := hloc2
            subst hti
            subst htrs
            obtain ⟨hTkNone, hTdrop, hkLt⟩ :=
              findTblO_split (body.drop (ci + 1)) k trs2 htbl
            have hcapA : findIdxO isCapPar (body.take (ci + 1 + k)) = some ci :=
              findIdxO_take isCapPar body ci (ci + 1 + k) hcap (by omega)
            have hAnone : findTblO ((body.take (ci + 1 + k)).drop (ci + 1)) = none := by
              rw [List.drop_take, show ci + 1 + k - (ci + 1) = k from by omega]
              exact hTkNone
            have hrest : (trs2.drop h).drop f ≠ [] := by
              apply List.ne_nil_of_length_pos
              rw [List.length_drop]
              omega
            obtain ⟨p, ps, hpp⟩ :
                ∃ p ps, chunksRest n ((trs2.drop h).drop f) = p :: ps := by
              rcases hcr : chunksRest n ((trs2.drop h).drop f) with _ | ⟨p, ps⟩
              · exact absurd hcr (chunksRest_ne_nil n _ hrest)
              · exact ⟨p, ps, rfl⟩
            have hB : split_table5_like_example h f n body
                = body.take (ci + 1 + k)
                  ++ (Blk.tbl (trs2.filter fun tr =>
                        tr ∈ trs2.take h ++ (trs2.drop h).take f)
                      :: contBlocksFor (chunksRest n ((trs2.drop h).drop f)))
                  ++ body.drop (ci + 1 + k + 1) := by
              simp only [split_table5_like_example, hloc]
              rw [if_neg hg, if_neg hlen, if_neg hdata]
            rw [hB]
            exact split_noop_on_result h f n (body.take (ci + 1 + k)) ci _ _ p ps
              (body.drop (ci + 1 + k + 1)) hcapA hAnone hpp
